import Mathlib

/-!
Verification of the append-only event log (`event-log` module).

The module stores one JSON record per line in a single JSONL file,
recovers the sequence counter by scanning the file backwards on open,
reads forward with cursor/type/limit filtering, and fans appended
records out to in-memory listener sets.

The embedding below models the file at line granularity: each physical
line of the JSONL file is either a line that `JSON.parse` decodes to an
event record, a non-blank line on which `JSON.parse` throws, or a
blank/whitespace-only line.  JavaScript `Set` and `Map` objects are
modelled as insertion-ordered lists; `Set` iteration during mutation
follows the JavaScript semantics (deleted not-yet-visited elements are
skipped, elements added during iteration are visited, re-adding a
present element is a no-op).  Listener callbacks are modelled by the
effect they have on the registry being iterated: doing nothing,
throwing, unsubscribing a listener by identity, or subscribing a fresh
listener.
-/

namespace EventLog

/-- One decoded record of the log (`EventLogEntry` in the source). -/
structure EventLogEntry where
  seq : Int
  ts : Int
  type : String
  payload : String
deriving DecidableEq, Repr

/-- One physical line of the JSONL file, at decode granularity:
`entry e` is a non-blank line that `JSON.parse` decodes to the record
`e`; `junk` is a non-blank line on which decoding throws; `blank` is an
empty or whitespace-only line. -/
inductive Line where
  | entry : EventLogEntry → Line
  | junk : Line
  | blank : Line
deriving DecidableEq, Repr

/-- `JSON.parse` on one line: succeeds exactly on `entry` lines. -/
def decodeLine : Line → Option EventLogEntry
  | Line.entry e => some e
  | Line.junk => none
  | Line.blank => none

/-- `!line.trim()`: the line is empty after trimming. -/
def isBlankLine : Line → Bool
  | Line.blank => true
  | _ => false

/-- The observable effect a listener callback has on the listener
registry it is registered in: return normally, throw (the exception is
swallowed by `append`), delete a listener by identity, or add a fresh
listener. -/
inductive LAction where
  | noop : LAction
  | throws : LAction
  | unsub : Nat → LAction
  | sub : Nat → LAction
deriving DecidableEq, Repr

/-- A listener: a function object, identified by `id` (JavaScript
compares listeners by object identity), whose call behaves as
`action`. -/
structure Listener where
  id : Nat
  action : LAction
deriving DecidableEq, Repr

/-- `set.delete(listener)`: remove the listener with the given identity. -/
def removeById (x : Nat) (l : List Listener) : List Listener :=
  l.filter (fun f => f.id != x)

/-- `set.has(listener)` by identity. -/
def hasId (x : Nat) (l : List Listener) : Bool :=
  l.any (fun f => f.id == x)

/-- Fuel weight of one listener action (a `sub` can enqueue one more
listener to visit, so it weighs 2). -/
def aWeight : LAction → Nat
  | LAction.sub _ => 2
  | _ => 1

/-- Total fuel weight of a listener list. -/
def setWeight (l : List Listener) : Nat :=
  (l.map (fun f => aWeight f.action)).sum

/-- `for (const fn of set) { try { fn(entry) } catch { } }` under
JavaScript live-`Set`-iteration semantics.  `done` holds the already
visited elements still in the set, `rest` the elements not yet visited,
`acc` the identities notified so far (reversed).  An `unsub` removes its
target from the set wherever it is; a not-yet-visited target is then
never notified.  A `sub` of an identity not currently in the set appends
it, and it will be visited.  Returns the notified identities in order
and the final contents of the set.  The fuel argument dominates
`setWeight rest`; `fanout` below supplies enough. -/
def fanoutF : Nat → List Listener → List Listener → List Nat → List Nat × List Listener
  | 0, done, rest, acc => (acc.reverse, done ++ rest)
  | _ + 1, done, [], acc => (acc.reverse, done)
  | fuel + 1, done, f :: rs, acc =>
    match f.action with
    | LAction.noop => fanoutF fuel (done ++ [f]) rs (f.id :: acc)
    | LAction.throws => fanoutF fuel (done ++ [f]) rs (f.id :: acc)
    | LAction.unsub x =>
        fanoutF fuel (removeById x (done ++ [f])) (removeById x rs) (f.id :: acc)
    | LAction.sub n =>
        if hasId n (done ++ [f]) || hasId n rs then
          fanoutF fuel (done ++ [f]) rs (f.id :: acc)
        else
          fanoutF fuel (done ++ [f]) (rs ++ [({ id := n, action := LAction.noop } : Listener)]) (f.id :: acc)

/-- Fan a record out over one listener set. -/
def fanout (l : List Listener) : List Nat × List Listener :=
  fanoutF (setWeight l + 1) [] l []

/-- The in-memory state of one opened log instance: the sequence
counter, the persisted file, the global listener `Set`, the
`Map` from type to per-type `Set` (modelled by reference: `typeMap`
maps a type to a set object id in `setHeap`, because the per-type
unsubscribe closure captures the set object, not the map slot), and the
allocator for set object ids. -/
structure LogState where
  seq : Int
  file : List Line
  listeners : List Listener
  typeMap : List (String × Nat)
  setHeap : List (Nat × List Listener)
  nextSetId : Nat
deriving DecidableEq, Repr

/-- `typeListeners.get(t)` (a JavaScript `Map` keyed by string). -/
def mapGet (m : List (String × Nat)) (t : String) : Option Nat :=
  (m.find? (fun p => p.1 == t)).map (fun p => p.2)

/-- `typeListeners.delete(t)`. -/
def mapDelete (m : List (String × Nat)) (t : String) : List (String × Nat) :=
  m.filter (fun p => p.1 != t)

/-- Dereference a set object id in the heap (absent ids give the empty
set; the model never deallocates set objects, as JavaScript does not). -/
def heapGet (h : List (Nat × List Listener)) (sid : Nat) : List Listener :=
  (((h.find? (fun p => p.1 == sid)).map (fun p => p.2)).getD [])

/-- Overwrite the contents of set object `sid` in the heap. -/
def heapSet (h : List (Nat × List Listener)) (sid : Nat) (s : List Listener) :
    List (Nat × List Listener) :=
  h.map (fun p => if p.1 == sid then (sid, s) else p)

/-- The per-type listener set the fan-out for type `t` will iterate
(empty when the map has no entry for `t`). -/
def typeSetOf (s : LogState) (t : String) : List Listener :=
  match mapGet s.typeMap t with
  | some sid => heapGet s.setHeap sid
  | none => []

/-- The outcome of one `append` call: `result` is the returned entry
(`none` when the durable write threw and the error propagated), `state`
the log state after the call, `notified` the listener identities
notified, in notification order. -/
structure AppendOutcome where
  result : Option EventLogEntry
  state : LogState
  notified : List Nat
deriving Repr

/-- `append(type, payload)`.  `ts` stands for `Date.now()` and
`writeOk` for whether `appendFile` succeeds.  The counter is advanced
before the write; on write failure the error propagates with the
counter left advanced and nobody notified; on success the encoded line
is appended to the file, then the global set is fanned out, then the
per-type set for `type`, if the map has one. -/
def appendOp (s : LogState) (t : String) (payload : String) (ts : Int) (writeOk : Bool) :
    AppendOutcome :=
  let seq1 := s.seq + 1
  let entry : EventLogEntry := { seq := seq1, ts := ts, type := t, payload := payload }
  if writeOk then
    let go := fanout s.listeners
    match mapGet s.typeMap t with
    | some sid =>
        let gt := fanout (heapGet s.setHeap sid)
        { result := some entry
          state := { s with
            seq := seq1
            file := s.file ++ [Line.entry entry]
            listeners := go.2
            setHeap := heapSet s.setHeap sid gt.2 }
          notified := go.1 ++ gt.1 }
    | none =>
        { result := some entry
          state := { s with
            seq := seq1
            file := s.file ++ [Line.entry entry]
            listeners := go.2 }
          notified := go.1 }
  else
    { result := none, state := { s with seq := seq1 }, notified := [] }

/-- `subscribe(listener)`: `listeners.add(listener)` (a no-op when the
same function object is already present). -/
def subscribeOp (s : LogState) (f : Listener) : LogState :=
  if hasId f.id s.listeners then s
  else { s with listeners := s.listeners ++ [f] }

/-- The closure returned by `subscribe`: `listeners.delete(listener)`. -/
def unsubscribeOp (s : LogState) (lid : Nat) : LogState :=
  { s with listeners := removeById lid s.listeners }

/-- What the closure returned by `subscribeType` captures: the type
string, the captured set *object* (by id), and the listener identity. -/
structure UnsubToken where
  type : String
  setId : Nat
  listenerId : Nat
deriving DecidableEq, Repr

/-- `subscribeType(type, listener)`: fetch or create the per-type set,
add the listener, and return the unsubscribe closure's captures. -/
def subscribeTypeOp (s : LogState) (t : String) (f : Listener) : LogState × UnsubToken :=
  match mapGet s.typeMap t with
  | some sid =>
      let set := heapGet s.setHeap sid
      let set1 := if hasId f.id set then set else set ++ [f]
      ({ s with setHeap := heapSet s.setHeap sid set1 },
       { type := t, setId := sid, listenerId := f.id })
  | none =>
      let sid := s.nextSetId
      ({ s with
          setHeap := s.setHeap ++ [(sid, [f])]
          typeMap := s.typeMap ++ [(t, sid)]
          nextSetId := sid + 1 },
       { type := t, setId := sid, listenerId := f.id })

/-- The closure returned by `subscribeType`:
`set.delete(listener); if (set.size === 0) typeListeners.delete(type)`—
note it deletes the map entry for `type` whenever the *captured* set
object is empty, whatever set the map currently holds for that type. -/
def unsubscribeTypeOp (s : LogState) (tok : UnsubToken) : LogState :=
  let set1 := removeById tok.listenerId (heapGet s.setHeap tok.setId)
  let heap1 := heapSet s.setHeap tok.setId set1
  if set1.length == 0 then
    { s with setHeap := heap1, typeMap := mapDelete s.typeMap tok.type }
  else
    { s with setHeap := heap1 }

/-- `close()`: `listeners.clear(); typeListeners.clear()`. -/
def closeOp (s : LogState) : LogState :=
  { s with listeners := [], typeMap := [] }

/-- The backward scan of `recoverLastSeq`: walk the reversed line list,
skip blank lines, return the `seq` of the first line that decodes,
skip lines whose decode throws, and yield 0 when nothing decodes. -/
def recoverGo : List Line → Int
  | [] => 0
  | l :: rest =>
    if isBlankLine l then recoverGo rest
    else
      match decodeLine l with
      | some e => e.seq
      | none => recoverGo rest

/-- `recoverLastSeq(logPath)` on the file contents (a missing file is
the empty line list). -/
def recoverLastSeq (file : List Line) : Int :=
  recoverGo file.reverse

/-- `createEventLog`: recover the counter from the existing file (0
when empty or missing) and start with empty listener state. -/
def openLog (file : List Line) : LogState :=
  { seq := recoverLastSeq file
    file := file
    listeners := []
    typeMap := []
    setHeap := []
    nextSetId := 0 }

/-- The options object of `read`.  `limit := none` and `type := none`
stand for the fields being absent (`?? Infinity` and `undefined`). -/
structure ReadOpts where
  afterSeq : Int
  limit : Option Int
  type : Option String
deriving DecidableEq, Repr

/-- `if (filterType && entry.type !== filterType) continue`—note the
JavaScript truthiness test: the filter is inactive when `filterType` is
absent *or the empty string*. -/
def typeSkip (ft : Option String) (ty : String) : Bool :=
  match ft with
  | some t => t != "" && ty != t
  | none => false

/-- `results.length >= limit` (with `limit = Infinity` when absent). -/
def limitHit (lim : Option Int) (n : Nat) : Bool :=
  match lim with
  | some l => decide (l ≤ (n : Int))
  | none => false

/-- The forward scan loop of `read`: skip blank lines, skip lines whose
decode throws, skip entries at or below the cursor, skip entries the
(truthy) type filter rejects, collect the rest, and stop as soon as the
collected count reaches the limit. -/
def readGo (a : Int) (ft : Option String) (lim : Option Int) :
    List Line → List EventLogEntry → List EventLogEntry
  | [], acc => acc.reverse
  | l :: rest, acc =>
    if isBlankLine l then readGo a ft lim rest acc
    else
      match decodeLine l with
      | none => readGo a ft lim rest acc
      | some e =>
        if e.seq ≤ a then readGo a ft lim rest acc
        else if typeSkip ft e.type then readGo a ft lim rest acc
        else
          if limitHit lim (e :: acc).length then (e :: acc).reverse
          else readGo a ft lim rest (e :: acc)

/-- `read(opts)` on the file contents (a missing file is the empty line
list and yields `[]`). -/
def readOp (file : List Line) (opts : ReadOpts) : List EventLogEntry :=
  readGo opts.afterSeq opts.type opts.limit file []

/-- Run a list of `append` calls (type, payload, timestamp), all with
successful writes, returning the entries handed back to the callers and
the final state. -/
def appendRun (s : LogState) : List (String × String × Int) → List EventLogEntry × LogState
  | [] => ([], s)
  | c :: rest =>
    let out := appendOp s c.1 c.2.1 c.2.2 true
    let r := appendRun out.state rest
    (out.result.toList ++ r.1, r.2)

/-- A listener action that neither unsubscribes nor subscribes anyone
(it may throw). -/
def isBenign : LAction → Bool
  | LAction.noop => true
  | LAction.throws => true
  | _ => false

/-- A listener that unsubscribes at most itself. -/
def selfSafe (f : Listener) : Bool :=
  match f.action with
  | LAction.unsub x => x == f.id
  | _ => true

/-- Recovery as the specification words it: the `seq` of the last line
of the file that decodes successfully, or 0 when no line decodes. -/
def recoverSpec (file : List Line) : Int :=
  match (file.reverse.filterMap decodeLine).head? with
  | some e => e.seq
  | none => 0

/-- Read eligibility as the claim words it: `seq` strictly above the
cursor and, whenever a type is given, an exact type match. -/
def eligibleSpec (opts : ReadOpts) (e : EventLogEntry) : Bool :=
  decide (opts.afterSeq < e.seq) &&
    (match opts.type with
     | some t => e.type == t
     | none => true)

/-- Result bounding as the claim words it: at most `limit` entries. -/
def takeLimitSpec (lim : Option Int) (l : List EventLogEntry) : List EventLogEntry :=
  match lim with
  | some n => l.take n.toNat
  | none => l

/-- `read` as the claim words it: the eligible decodable entries in
file order, truncated to the limit. -/
def readSpec (file : List Line) (opts : ReadOpts) : List EventLogEntry :=
  takeLimitSpec opts.limit ((file.filterMap decodeLine).filter (eligibleSpec opts))

/-- Read eligibility as the code computes it: `seq` strictly above the
cursor, and the truthiness-guarded type filter does not reject. -/
def eligibleCode (a : Int) (ft : Option String) (e : EventLogEntry) : Bool :=
  decide (a < e.seq) && !(typeSkip ft e.type)

/-- Result bounding as the code computes it: the limit check runs
after each push, so a limit below 1 still lets one entry through. -/
def takeLimitCode (lim : Option Int) (l : List EventLogEntry) : List EventLogEntry :=
  match lim with
  | some n => l.take (max n 1).toNat
  | none => l

/-- The extensional characterization of `read`: the code-eligible
decodable entries in file order, truncated to the effective limit. -/
def readCharacterized (file : List Line) (opts : ReadOpts) : List EventLogEntry :=
  takeLimitCode opts.limit
    ((file.filterMap decodeLine).filter (eligibleCode opts.afterSeq opts.type))

-- ==================== Helper lemmas ====================

theorem recoverGo_eq_head (l : List Line) :
    recoverGo l = (match (l.filterMap decodeLine).head? with
      | some e => e.seq
      | none => 0) := by
  induction l with
  | nil => rfl
  | cons x rest ih =>
    cases x with
    | entry e => simp [recoverGo, decodeLine, isBlankLine]
    | junk => simpa [recoverGo, decodeLine, isBlankLine] using ih
    | blank => simpa [recoverGo, decodeLine, isBlankLine] using ih

/-- What remains of the limit when `k` entries are already collected:
the loop pushes before checking, so at least one more entry fits. -/
def takeResidual (lim : Option Int) (k : Nat) (l : List EventLogEntry) : List EventLogEntry :=
  match lim with
  | none => l
  | some n => l.take (max (n - (k : Int)) 1).toNat

theorem take_residual_cons (n : Int) (k : Nat) (e : EventLogEntry) (l : List EventLogEntry)
    (h : (k : Int) + 1 < n) :
    (e :: l).take (max (n - (k : Int)) 1).toNat
      = e :: l.take (max (n - ((k : Int) + 1)) 1).toNat := by
  have h1 : max (n - (k : Int)) 1 = n - k := by omega
  have h2 : max (n - ((k : Int) + 1)) 1 = n - ((k : Int) + 1) := by omega
  rw [h1, h2]
  have h3 : (n - (k : Int)).toNat = (n - ((k : Int) + 1)).toNat + 1 := by omega
  rw [h3, List.take_succ_cons]

theorem readGo_char (a : Int) (ft : Option String) (lim : Option Int) :
    ∀ (lines : List Line) (acc : List EventLogEntry),
      readGo a ft lim lines acc
        = acc.reverse ++ takeResidual lim acc.length
            ((lines.filterMap decodeLine).filter (eligibleCode a ft)) := by
  intro lines
  induction lines with
  | nil =>
    intro acc
    cases lim <;> simp [readGo, takeResidual]
  | cons l rest ih =>
    intro acc
    cases l with
    | blank => simpa [readGo, isBlankLine, decodeLine] using ih acc
    | junk => simpa [readGo, isBlankLine, decodeLine] using ih acc
    | entry e =>
      by_cases h1 : e.seq ≤ a
      · have hel : eligibleCode a ft e = false := by
          simp only [eligibleCode, Bool.and_eq_false_iff, decide_eq_false_iff_not]
          left
          omega
        simpa [readGo, isBlankLine, decodeLine, h1, hel] using ih acc
      · by_cases h2 : typeSkip ft e.type
        · have hel : eligibleCode a ft e = false := by
            simp [eligibleCode, h2]
          simpa [readGo, isBlankLine, decodeLine, h1, h2, hel] using ih acc
        · have hel : eligibleCode a ft e = true := by
            simp only [eligibleCode, h2, Bool.not_false, Bool.and_true, decide_eq_true_eq]
            omega
          have hstep : readGo a ft lim (Line.entry e :: rest) acc
              = (if limitHit lim (e :: acc).length = true then (e :: acc).reverse
                 else readGo a ft lim rest (e :: acc)) := by
            simp [readGo, isBlankLine, decodeLine, h1, h2]
          have hfm : (Line.entry e :: rest).filterMap decodeLine
              = e :: rest.filterMap decodeLine := by
            simp [List.filterMap_cons, decodeLine]
          cases lim with
          | none =>
            rw [hstep, if_neg (by simp [limitHit]), ih (e :: acc)]
            simp [takeResidual, hfm, List.filter_cons, hel]
          | some n =>
            by_cases h3 : n ≤ ((e :: acc).length : Int)
            · have hhit : limitHit (some n) (e :: acc).length = true := by
                simp only [limitHit, decide_eq_true_eq]
                exact h3
              rw [hstep, if_pos hhit]
              have h3' : n ≤ (acc.length : Int) + 1 := by simpa using h3
              have hmax : max (n - (acc.length : Int)) 1 = 1 := by omega
              simp [takeResidual, hfm, List.filter_cons, hel, hmax]
            · have hmiss : ¬(limitHit (some n) (e :: acc).length = true) := by
                simp only [limitHit, decide_eq_true_eq]
                exact h3
              rw [hstep, if_neg hmiss, ih (e :: acc)]
              have hlt : ((acc.length : Int)) + 1 < n := by
                simp only [List.length_cons] at h3
                push_cast at h3
                omega
              simp only [takeResidual, hfm, List.filter_cons, hel, if_true,
                List.reverse_cons, List.length_cons, List.append_assoc,
                List.singleton_append]
              rw [show ((acc.length + 1 : Nat) : Int) = (acc.length : Int) + 1 by push_cast; rfl]
              rw [take_residual_cons _ _ _ _ hlt]

theorem readOp_characterized (file : List Line) (opts : ReadOpts) :
    readOp file opts = readCharacterized file opts := by
  rcases opts with ⟨a, lim, ft⟩
  have h := readGo_char a ft lim file []
  simp only [readOp] at h ⊢
  rw [h]
  cases lim <;> simp [takeResidual, takeLimitCode, readCharacterized]

theorem appendOp_true_result (s : LogState) (t p : String) (ts : Int) :
    (appendOp s t p ts true).result
      = some { seq := s.seq + 1, ts := ts, type := t, payload := p } := by
  cases h : mapGet s.typeMap t <;> simp [appendOp, h]

theorem appendOp_true_seq (s : LogState) (t p : String) (ts : Int) :
    (appendOp s t p ts true).state.seq = s.seq + 1 := by
  cases h : mapGet s.typeMap t <;> simp [appendOp, h]

theorem appendOp_true_file (s : LogState) (t p : String) (ts : Int) :
    (appendOp s t p ts true).state.file
      = s.file ++ [Line.entry { seq := s.seq + 1, ts := ts, type := t, payload := p }] := by
  cases h : mapGet s.typeMap t <;> simp [appendOp, h]

theorem appendRun_seq (calls : List (String × String × Int)) :
    ∀ s : LogState, (appendRun s calls).2.seq = s.seq + calls.length := by
  induction calls with
  | nil => intro s; simp [appendRun]
  | cons c rest ih =>
    intro s
    simp [appendRun, ih, appendOp_true_seq]
    omega

theorem appendRun_seqs (calls : List (String × String × Int)) :
    ∀ s : LogState,
      (appendRun s calls).1.map EventLogEntry.seq
        = (List.range calls.length).map (fun k : Nat => s.seq + (k : Int) + 1) := by
  induction calls with
  | nil => intro s; simp [appendRun]
  | cons c rest ih =>
    intro s
    have h1 : (appendRun s (c :: rest)).1
        = { seq := s.seq + 1, ts := c.2.2, type := c.1, payload := c.2.1 }
            :: (appendRun (appendOp s c.1 c.2.1 c.2.2 true).state rest).1 := by
      simp [appendRun, appendOp_true_result]
    rw [h1, List.map_cons, ih, appendOp_true_seq]
    rw [List.length_cons, List.range_succ_eq_map, List.map_cons, List.map_map]
    congr 1
    · simp
    · refine List.map_congr_left ?_
      intro k _
      simp [Function.comp]
      omega

theorem recover_append_entry (file : List Line) (e : EventLogEntry) :
    recoverLastSeq (file ++ [Line.entry e]) = e.seq := by
  simp [recoverLastSeq, recoverGo, isBlankLine, decodeLine]

theorem appendRun_recover (calls : List (String × String × Int)) :
    ∀ s : LogState, recoverLastSeq s.file = s.seq →
      recoverLastSeq (appendRun s calls).2.file = (appendRun s calls).2.seq := by
  induction calls with
  | nil => intro s h; simpa [appendRun] using h
  | cons c rest ih =>
    intro s h
    simp [appendRun]
    refine ih _ ?_
    rw [appendOp_true_file, appendOp_true_seq, recover_append_entry]

theorem setWeight_cons (f : Listener) (l : List Listener) :
    setWeight (f :: l) = aWeight f.action + setWeight l := by
  simp [setWeight]

theorem aWeight_pos (a : LAction) : 1 ≤ aWeight a := by
  cases a <;> simp [aWeight]

theorem fanoutF_benign :
    ∀ (l : List Listener) (fuel : Nat) (done : List Listener) (acc : List Nat),
      setWeight l < fuel → (∀ f ∈ l, isBenign f.action = true) →
      fanoutF fuel done l acc = (acc.reverse ++ l.map Listener.id, done ++ l) := by
  intro l
  induction l with
  | nil =>
    intro fuel done acc hfuel _
    cases fuel with
    | zero => omega
    | succ m => simp [fanoutF]
  | cons f rs ih =>
    intro fuel done acc hfuel hb
    cases fuel with
    | zero => omega
    | succ m =>
      have hf : isBenign f.action = true := hb f (by simp)
      have hrs : ∀ g ∈ rs, isBenign g.action = true := fun g hg => hb g (by simp [hg])
      have hw : setWeight rs < m := by
        rw [setWeight_cons] at hfuel
        have ha := aWeight_pos f.action
        omega
      cases hact : f.action with
      | noop =>
        rw [show fanoutF (m + 1) done (f :: rs) acc
              = fanoutF m (done ++ [f]) rs (f.id :: acc) by simp [fanoutF, hact]]
        rw [ih m (done ++ [f]) (f.id :: acc) hw hrs]
        simp
      | throws =>
        rw [show fanoutF (m + 1) done (f :: rs) acc
              = fanoutF m (done ++ [f]) rs (f.id :: acc) by simp [fanoutF, hact]]
        rw [ih m (done ++ [f]) (f.id :: acc) hw hrs]
        simp
      | unsub x =>
        rw [hact] at hf
        simp [isBenign] at hf
      | sub n =>
        rw [hact] at hf
        simp [isBenign] at hf

theorem fanout_benign (l : List Listener) (hb : ∀ f ∈ l, isBenign f.action = true) :
    fanout l = (l.map Listener.id, l) := by
  unfold fanout
  rw [fanoutF_benign l (setWeight l + 1) [] [] (by omega) hb]
  simp

theorem setWeight_append (l1 l2 : List Listener) :
    setWeight (l1 ++ l2) = setWeight l1 + setWeight l2 := by
  simp [setWeight]

theorem setWeight_filter_le (p : Listener → Bool) (l : List Listener) :
    setWeight (l.filter p) ≤ setWeight l := by
  induction l with
  | nil => simp [setWeight]
  | cons f rs ih =>
    by_cases h : p f
    · simp only [List.filter_cons, h, if_true, setWeight_cons]
      omega
    · simp only [List.filter_cons, h, Bool.false_eq_true, if_false, setWeight_cons]
      have := aWeight_pos f.action
      omega

theorem acc_mem_fanoutF :
    ∀ (fuel : Nat) (done l : List Listener) (acc : List Nat) (x : Nat),
      x ∈ acc → x ∈ (fanoutF fuel done l acc).1 := by
  intro fuel
  induction fuel with
  | zero =>
    intro done l acc x hx
    simpa [fanoutF] using hx
  | succ m ih =>
    intro done l acc x hx
    cases l with
    | nil => simpa [fanoutF] using hx
    | cons f rs =>
      cases hact : f.action with
      | noop =>
        simp only [fanoutF, hact]
        exact ih _ _ _ x (by simp [hx])
      | throws =>
        simp only [fanoutF, hact]
        exact ih _ _ _ x (by simp [hx])
      | unsub y =>
        simp only [fanoutF, hact]
        exact ih _ _ _ x (by simp [hx])
      | sub n =>
        simp only [fanoutF, hact]
        cases hguard : hasId n (done ++ [f]) || hasId n rs with
        | true =>
          simp only [hguard, if_true]
          exact ih _ _ _ x (by simp [hx])
        | false =>
          simp only [hguard, Bool.false_eq_true, if_false]
          exact ih _ _ _ x (by simp [hx])

theorem fanoutF_selfSafe_mem :
    ∀ (fuel : Nat) (l : List Listener), setWeight l < fuel →
      (∀ f ∈ l, selfSafe f = true) → (l.map Listener.id).Nodup →
      ∀ (done : List Listener) (acc : List Nat) (g : Listener), g ∈ l →
        g.id ∈ (fanoutF fuel done l acc).1 := by
  intro fuel
  induction fuel with
  | zero =>
    intro l hfuel
    omega
  | succ m ih =>
    intro l hfuel hsafe hnd done acc g hg
    cases l with
    | nil => simp at hg
    | cons f rs =>
      have hwt : aWeight f.action + setWeight rs < m + 1 := by
        rw [setWeight_cons] at hfuel
        exact hfuel
      have hnd' : f.id ∉ rs.map Listener.id ∧ (rs.map Listener.id).Nodup := by
        simpa [List.nodup_cons] using hnd
      have hsafe' : ∀ f' ∈ rs, selfSafe f' = true :=
        fun f' hf' => hsafe f' (List.mem_cons_of_mem f hf')
      rcases List.mem_cons.mp hg with rfl | hgr
      · -- g is the head listener: it is notified before its action runs
        cases hact : g.action with
        | noop =>
          simp only [fanoutF, hact]
          exact acc_mem_fanoutF m _ _ _ g.id (by simp)
        | throws =>
          simp only [fanoutF, hact]
          exact acc_mem_fanoutF m _ _ _ g.id (by simp)
        | unsub y =>
          simp only [fanoutF, hact]
          exact acc_mem_fanoutF m _ _ _ g.id (by simp)
        | sub n =>
          simp only [fanoutF, hact]
          cases hguard : hasId n (done ++ [g]) || hasId n rs with
          | true =>
            simp only [hguard, if_true]
            exact acc_mem_fanoutF m _ _ _ g.id (by simp)
          | false =>
            simp only [hguard, Bool.false_eq_true, if_false]
            exact acc_mem_fanoutF m _ _ _ g.id (by simp)
      · -- g is further down: the head's self-scoped action spares it
        have hgid : g.id ≠ f.id := by
          intro heq
          exact hnd'.1 (List.mem_map.mpr ⟨g, hgr, heq⟩)
        cases hact : f.action with
        | noop =>
          simp only [fanoutF, hact]
          have ha1 : aWeight f.action = 1 := by rw [hact]; rfl
          exact ih rs (by omega) hsafe' hnd'.2 _ _ g hgr
        | throws =>
          simp only [fanoutF, hact]
          have ha1 : aWeight f.action = 1 := by rw [hact]; rfl
          exact ih rs (by omega) hsafe' hnd'.2 _ _ g hgr
        | unsub y =>
          have hy : y = f.id := by
            have hsf := hsafe f (by simp)
            simp only [selfSafe, hact, beq_iff_eq] at hsf
            exact hsf
          simp only [fanoutF, hact, hy]
          have hmem : g ∈ removeById f.id rs := by
            refine List.mem_filter.mpr ⟨hgr, ?_⟩
            simp [hgid]
          have hsafe2 : ∀ f' ∈ removeById f.id rs, selfSafe f' = true :=
            fun f' hf' => hsafe' f' (List.mem_filter.mp hf').1
          have hnd2 : ((removeById f.id rs).map Listener.id).Nodup :=
            hnd'.2.sublist ((List.filter_sublist rs).map Listener.id)
          have hw2 : setWeight (removeById f.id rs) < m := by
            have h1 := setWeight_filter_le (fun f' => f'.id != f.id) rs
            have ha1 : aWeight f.action = 1 := by rw [hact]; rfl
            simp only [removeById]
            omega
          exact ih (removeById f.id rs) hw2 hsafe2 hnd2 _ _ g hmem
        | sub n =>
          have ha2 : aWeight f.action = 2 := by rw [hact]; rfl
          simp only [fanoutF, hact]
          cases hguard : hasId n (done ++ [f]) || hasId n rs with
          | true =>
            simp only [hguard, if_true]
            exact ih rs (by omega) hsafe' hnd'.2 _ _ g hgr
          | false =>
            simp only [hguard, Bool.false_eq_true, if_false]
            have hnin : n ∉ rs.map Listener.id := by
              intro hmem
              rcases List.mem_map.mp hmem with ⟨g', hg', hid⟩
              have hhas : hasId n rs = true := by
                simp only [hasId, List.any_eq_true]
                exact ⟨g', hg', by simp [hid]⟩
              simp [hhas] at hguard
            have hnd2 : ((rs ++ [({ id := n, action := LAction.noop } : Listener)]).map Listener.id).Nodup := by
              simp only [List.map_append, List.map_cons, List.map_nil]
              rw [List.nodup_append]
              refine ⟨hnd'.2, by simp, ?_⟩
              intro x hx
              simp only [List.mem_singleton]
              intro hxn
              exact hnin (hxn ▸ hx)
            have hsafe2 : ∀ f' ∈ rs ++ [({ id := n, action := LAction.noop } : Listener)],
                selfSafe f' = true := by
              intro f' hf'
              rcases List.mem_append.mp hf' with h | h
              · exact hsafe' f' h
              · simp only [List.mem_singleton] at h
                rw [h]
                rfl
            have hw2 : setWeight (rs ++ [({ id := n, action := LAction.noop } : Listener)]) < m := by
              rw [setWeight_append]
              have : setWeight [({ id := n, action := LAction.noop } : Listener)] = 1 := rfl
              omega
            exact ih _ hw2 hsafe2 hnd2 _ _ g (List.mem_append.mpr (Or.inl hgr))

theorem removeById_idem (x : Nat) (l : List Listener) :
    removeById x (removeById x l) = removeById x l := by
  simp only [removeById]
  induction l with
  | nil => rfl
  | cons f rs ih =>
    by_cases h : (f.id != x) = true
    · simp only [List.filter_cons, h, if_true, ih]
    · simp only [List.filter_cons, h, Bool.false_eq_true, if_false, ih]

theorem mapDelete_idem (m : List (String × Nat)) (t : String) :
    mapDelete (mapDelete m t) t = mapDelete m t := by
  simp only [mapDelete]
  induction m with
  | nil => rfl
  | cons p rest ih =>
    by_cases h : (p.1 != t) = true
    · simp only [List.filter_cons, h, if_true, ih]
    · simp only [List.filter_cons, h, Bool.false_eq_true, if_false, ih]

theorem heapGet_heapSet_self (h : List (Nat × List Listener)) (sid : Nat) (v : List Listener) :
    heapGet (heapSet h sid v) sid
      = if h.any (fun p => p.1 == sid) then v else heapGet h sid := by
  induction h with
  | nil => simp [heapGet, heapSet]
  | cons p t ih =>
    by_cases hp : p.1 = sid
    · have hhead : heapSet (p :: t) sid v = (sid, v) :: heapSet t sid v := by
        simp [heapSet, hp]
      rw [hhead]
      have hfind : heapGet ((sid, v) :: heapSet t sid v) sid = v := by
        simp [heapGet, List.find?_cons]
      rw [hfind]
      simp [List.any_cons, hp]
    · have hpb : (p.1 == sid) = false := by
        simpa using hp
      have hhead : heapSet (p :: t) sid v = p :: heapSet t sid v := by
        simp [heapSet, hp]
      rw [hhead]
      have h1 : heapGet (p :: heapSet t sid v) sid = heapGet (heapSet t sid v) sid := by
        simp [heapGet, List.find?_cons, hpb]
      have h2 : heapGet (p :: t) sid = heapGet t sid := by
        simp [heapGet, List.find?_cons, hpb]
      rw [h1, ih, List.any_cons, hpb, Bool.false_or, h2]

theorem heapGet_of_not_mem (h : List (Nat × List Listener)) (sid : Nat)
    (hh : h.any (fun p => p.1 == sid) = false) :
    heapGet h sid = [] := by
  induction h with
  | nil => rfl
  | cons p t ih =>
    simp only [List.any_cons, Bool.or_eq_false_iff] at hh
    have h2 : heapGet (p :: t) sid = heapGet t sid := by
      simp [heapGet, List.find?_cons, hh.1]
    rw [h2]
    exact ih hh.2

theorem heapGet_heapSet_remove (h : List (Nat × List Listener)) (sid lid : Nat) :
    heapGet (heapSet h sid (removeById lid (heapGet h sid))) sid
      = removeById lid (heapGet h sid) := by
  rw [heapGet_heapSet_self]
  by_cases hany : (h.any (fun p => p.1 == sid)) = true
  · rw [if_pos hany]
  · rw [if_neg hany]
    rw [Bool.not_eq_true] at hany
    rw [heapGet_of_not_mem h sid hany]
    rfl

theorem heapSet_heapSet (h : List (Nat × List Listener)) (sid : Nat) (v w : List Listener) :
    heapSet (heapSet h sid v) sid w = heapSet h sid w := by
  simp only [heapSet, List.map_map]
  refine List.map_congr_left ?_
  intro p _
  by_cases hp : (p.1 == sid) = true
  · simp [Function.comp, hp]
  · simp [Function.comp, hp]

theorem unsubscribeTypeOp_setHeap (s : LogState) (ty : String) (sid lid : Nat) :
    (unsubscribeTypeOp s { type := ty, setId := sid, listenerId := lid }).setHeap
      = heapSet s.setHeap sid (removeById lid (heapGet s.setHeap sid)) := by
  simp only [unsubscribeTypeOp]
  split <;> rfl

theorem unsubscribeTypeOp_removes (s : LogState) (tok : UnsubToken) :
    heapGet (unsubscribeTypeOp s tok).setHeap tok.setId
      = removeById tok.listenerId (heapGet s.setHeap tok.setId) := by
  rcases tok with ⟨ty, sid, lid⟩
  rw [unsubscribeTypeOp_setHeap]
  exact heapGet_heapSet_remove s.setHeap sid lid

theorem unsubscribeTypeOp_idem (s : LogState) (tok : UnsubToken) :
    unsubscribeTypeOp (unsubscribeTypeOp s tok) tok = unsubscribeTypeOp s tok := by
  rcases tok with ⟨ty, sid, lid⟩
  by_cases hv : ((removeById lid (heapGet s.setHeap sid)).length == 0) = true
  · have hinner : unsubscribeTypeOp s ⟨ty, sid, lid⟩
        = { s with
            setHeap := heapSet s.setHeap sid (removeById lid (heapGet s.setHeap sid))
            typeMap := mapDelete s.typeMap ty } := by
      simp only [unsubscribeTypeOp]
      rw [if_pos hv]
    rw [hinner]
    simp only [unsubscribeTypeOp]
    rw [heapGet_heapSet_remove, removeById_idem, if_pos hv, heapSet_heapSet, mapDelete_idem]
  · have hinner : unsubscribeTypeOp s ⟨ty, sid, lid⟩
        = { s with
            setHeap := heapSet s.setHeap sid (removeById lid (heapGet s.setHeap sid)) } := by
      simp only [unsubscribeTypeOp]
      rw [if_neg hv]
    rw [hinner]
    simp only [unsubscribeTypeOp]
    rw [heapGet_heapSet_remove, removeById_idem, if_neg hv, heapSet_heapSet]

-- ==================== Claim theorems ====================

/-- C2: recovery scans the file from the last line toward the first,
skipping blank lines and lines whose decode fails, and returns the
`seq` of the first line that decodes (0 when the file is empty or
missing or nothing decodes); in particular a valid record followed by
a non-decodable trailing line recovers that record's `seq`, and
recovery is total, so open never fails on such content. -/
theorem C2_recovery_backward_scan :
    (∀ file : List Line, recoverLastSeq file = recoverSpec file) ∧
    recoverLastSeq [] = 0 ∧
    (∀ (file : List Line) (e : EventLogEntry),
      recoverLastSeq (file ++ [Line.entry e, Line.junk]) = e.seq) := by
  refine ⟨fun file => ?_, rfl, fun file e => ?_⟩
  · simpa [recoverLastSeq, recoverSpec] using recoverGo_eq_head file.reverse
  · simp [recoverLastSeq, recoverGo, isBlankLine, decodeLine]

/-- C1: on a freshly created log over an empty or missing file, any
sequence of N successful appends returns entries whose `seq` values
are exactly 1, 2, ..., N in call order, and after the k-th successful
append `lastSeq()` returns k. -/
theorem C1_seq_monotone_from_one (calls : List (String × String × Int)) :
    ((appendRun (openLog []) calls).1.map EventLogEntry.seq
       = (List.range calls.length).map (fun k : Nat => (k : Int) + 1)) ∧
    (∀ k : Nat, k ≤ calls.length →
       (appendRun (openLog []) (calls.take k)).2.seq = (k : Int)) := by
  constructor
  · have h := appendRun_seqs calls (openLog [])
    simpa [openLog, recoverLastSeq, recoverGo] using h
  · intro k hk
    have h := appendRun_seq (calls.take k) (openLog [])
    have hlen : (calls.take k).length = k := by
      simp [List.length_take, Nat.min_eq_left hk]
    rw [hlen] at h
    simpa [openLog, recoverLastSeq, recoverGo] using h

/-- Witness for C1: after two successful appends on a fresh log,
`lastSeq()` is 2. -/
theorem C1_seq_monotone_from_one_witness :
    (appendRun (openLog []) ([("a", "p", (0 : Int)), ("b", "q", (1 : Int))].take 2)).2.seq
      = ((2 : Nat) : Int) :=
  (C1_seq_monotone_from_one [("a", "p", 0), ("b", "q", 1)]).2 2 (by decide)

/-- Counterexample to C3 as stated: (i) with the empty string as the
requested type, `read` applies no type filter at all (the JavaScript
truthiness guard), so an entry of a different type is returned although
the claim demands an exact match; (ii) on a file whose decodable
entries are not in ascending `seq` order, the result is in file order,
not ascending; (iii) with `limit = 0` the result holds one entry, not
at most zero. -/
theorem C3_read_filter_counterexample :
    (readOp [Line.entry { seq := 1, ts := 0, type := "A", payload := "p" }]
        { afterSeq := 0, limit := none, type := some "" }
      ≠ readSpec [Line.entry { seq := 1, ts := 0, type := "A", payload := "p" }]
        { afterSeq := 0, limit := none, type := some "" }) ∧
    (¬ List.Chain' (fun x y : EventLogEntry => x.seq < y.seq)
        (readOp [Line.entry { seq := 5, ts := 0, type := "A", payload := "p" },
                 Line.entry { seq := 3, ts := 0, type := "A", payload := "q" }]
          { afterSeq := 0, limit := none, type := none })) ∧
    ((readOp [Line.entry { seq := 1, ts := 0, type := "A", payload := "p" }]
        { afterSeq := 0, limit := some 0, type := none }).length = 1) := by
  refine ⟨by decide, ?_, by decide⟩
  intro hch
  have hv : readOp [Line.entry { seq := 5, ts := 0, type := "A", payload := "p" },
                 Line.entry { seq := 3, ts := 0, type := "A", payload := "q" }]
          { afterSeq := 0, limit := none, type := none }
      = [{ seq := 5, ts := 0, type := "A", payload := "p" },
         { seq := 3, ts := 0, type := "A", payload := "q" }] := by decide
  rw [hv] at hch
  have hlt := (List.chain'_cons.mp hch).1
  norm_num at hlt

/-- C3 amended: `read` returns exactly the decodable entries whose
`seq` is strictly greater than `afterSeq` and which the
truthiness-guarded type filter accepts (exact match is only enforced
for a given *non-empty* type), in file order (hence ascending `seq`
only when the file's entries are), truncated to the limit with a limit
below 1 behaving as 1; non-decodable and blank lines are skipped
anywhere, and a missing file yields an empty result, never an error. -/
theorem C3_read_filter_amended :
    (∀ (file : List Line) (opts : ReadOpts), readOp file opts = readCharacterized file opts) ∧
    (∀ opts : ReadOpts, readOp [] opts = []) := by
  refine ⟨readOp_characterized, fun opts => ?_⟩
  rw [readOp_characterized]
  rcases opts with ⟨a, lim, ft⟩
  cases lim <;> simp [readCharacterized, takeLimitCode]

/-- C4: after N successful appends from a fresh log, opening a fresh
instance over the resulting file recovers `lastSeq() = N`, and the
next successful append on the reopened instance returns an entry with
`seq = N + 1`. -/
theorem C4_reopen_continues (calls : List (String × String × Int)) (t p : String) (ts : Int) :
    (openLog (appendRun (openLog []) calls).2.file).seq = (calls.length : Int) ∧
    (appendOp (openLog (appendRun (openLog []) calls).2.file) t p ts true).result
      = some { seq := (calls.length : Int) + 1, ts := ts, type := t, payload := p } := by
  have hrec : recoverLastSeq (appendRun (openLog []) calls).2.file
      = (appendRun (openLog []) calls).2.seq :=
    appendRun_recover calls (openLog []) rfl
  have hseq := appendRun_seq calls (openLog [])
  have h0 : (openLog (appendRun (openLog []) calls).2.file).seq = (calls.length : Int) := by
    have hdef : (openLog (appendRun (openLog []) calls).2.file).seq
        = recoverLastSeq (appendRun (openLog []) calls).2.file := rfl
    rw [hdef, hrec, hseq]
    show (0 : Int) + (calls.length : Int) = (calls.length : Int)
    omega
  refine ⟨h0, ?_⟩
  rw [appendOp_true_result, h0]

/-- C5: when the durable write fails, the error propagates to the
caller (no entry is returned), the in-memory counter remains advanced
by one with nothing else changed, and no listener is notified. -/
theorem C5_failed_append_consumes_seq (s : LogState) (t payload : String) (ts : Int) :
    (appendOp s t payload ts false).result = none ∧
    (appendOp s t payload ts false).state = { s with seq := s.seq + 1 } ∧
    (appendOp s t payload ts false).notified = [] :=
  ⟨rfl, rfl, rfl⟩

/-- C6: on a successful append the record is delivered first to every
listener of the global set in insertion order and then to every
listener of the per-type set for its type (empty when the type has no
registry), and listeners that throw (here: all listeners that do not
mutate the registries, throwing or not) neither prevent delivery to the
remaining listeners nor make the append fail. -/
theorem C6_fanout_order_and_isolation (s : LogState) (t p : String) (ts : Int)
    (hg : ∀ f ∈ s.listeners, isBenign f.action = true)
    (ht : ∀ f ∈ typeSetOf s t, isBenign f.action = true) :
    (appendOp s t p ts true).result
      = some { seq := s.seq + 1, ts := ts, type := t, payload := p } ∧
    (appendOp s t p ts true).notified
      = s.listeners.map Listener.id ++ (typeSetOf s t).map Listener.id := by
  refine ⟨appendOp_true_result s t p ts, ?_⟩
  have hgf := fanout_benign s.listeners hg
  cases hmap : mapGet s.typeMap t with
  | none =>
    simp [appendOp, hmap, hgf, typeSetOf]
  | some sid =>
    have ht' : ∀ f ∈ heapGet s.setHeap sid, isBenign f.action = true := by
      simpa [typeSetOf, hmap] using ht
    have htf := fanout_benign (heapGet s.setHeap sid) ht'
    simp [appendOp, hmap, hgf, htf, typeSetOf]

/-- A concrete state for the C6 witness: a throwing global listener
ahead of a well-behaved one, plus one per-type listener for `"t"`. -/
def c6state : LogState :=
  { seq := 0
    file := []
    listeners := [{ id := 1, action := LAction.throws }, { id := 2, action := LAction.noop }]
    typeMap := [("t", 0)]
    setHeap := [(0, [{ id := 3, action := LAction.noop }])]
    nextSetId := 1 }

/-- Witness for C6: the throwing listener 1 does not stop listener 2
nor the per-type listener 3 from being notified, in order. -/
theorem C6_fanout_order_and_isolation_witness :
    (appendOp c6state "t" "p" 0 true).notified = [1, 2, 3] := by
  have h := (C6_fanout_order_and_isolation c6state "t" "p" 0 (by decide) (by decide)).2
  rw [h]
  decide

/-- C7 counterexample scenario, step 1: subscribe listener 1 to type
`"A"` on a fresh log. -/
def c7step1 : LogState × UnsubToken :=
  subscribeTypeOp (openLog []) "A" { id := 1, action := LAction.noop }

/-- Step 2: first call of listener 1's unsubscribe (legitimate; empties
and unregisters the type's registry). -/
def c7step2 : LogState :=
  unsubscribeTypeOp c7step1.1 c7step1.2

/-- Step 3: subscribe listener 2 to the same type, creating a fresh
registry for `"A"`. -/
def c7step3 : LogState × UnsubToken :=
  subscribeTypeOp c7step2 "A" { id := 2, action := LAction.noop }

/-- Step 4: second (duplicate) call of listener 1's unsubscribe. -/
def c7step4 : LogState :=
  unsubscribeTypeOp c7step3.1 c7step1.2

/-- Counterexample to C7 as stated: before the duplicate unsubscribe
call, listener 2 — registered by an independent `subscribeType` call
and never unsubscribed — receives appends of type `"A"`; after the
duplicate call it does not, because the stale closure's captured set is
still empty and the closure deletes the type's *current* registry from
the map.  The second call is therefore not free of side effects on
listeners registered by other calls. -/
theorem C7_stale_unsubscribe_counterexample :
    (appendOp c7step3.1 "A" "p" 0 true).notified = [2] ∧
    (appendOp c7step4 "A" "p" 0 true).notified = [] ∧
    mapGet c7step4.typeMap "A" = none := by
  refine ⟨by decide, by decide, by decide⟩

/-- C7 amended: the unsubscribe closures remove exactly the listener
registered by their call — the global closure is fully idempotent and
touches nothing but that listener, and the per-type closure removes
exactly its listener from its captured set and is a no-op when
immediately repeated on an unchanged state.  The idempotence claimed
for arbitrary *later* duplicate calls fails, however, when the type's
registry was emptied and re-created in between: the stale closure then
deletes the type's current registry (see the counterexample). -/
theorem C7_unsubscribe_amended :
    (∀ (s : LogState) (lid : Nat),
       (unsubscribeOp s lid).listeners = removeById lid s.listeners ∧
       unsubscribeOp (unsubscribeOp s lid) lid = unsubscribeOp s lid) ∧
    (∀ (s : LogState) (tok : UnsubToken),
       heapGet (unsubscribeTypeOp s tok).setHeap tok.setId
         = removeById tok.listenerId (heapGet s.setHeap tok.setId) ∧
       unsubscribeTypeOp (unsubscribeTypeOp s tok) tok = unsubscribeTypeOp s tok) := by
  constructor
  · intro s lid
    refine ⟨rfl, ?_⟩
    simp only [unsubscribeOp]
    rw [removeById_idem]
  · intro s tok
    exact ⟨unsubscribeTypeOp_removes s tok, unsubscribeTypeOp_idem s tok⟩

/-- A concrete state for the C8 counterexample: the first global
listener unsubscribes the second during its own notification. -/
def c8state : LogState :=
  { seq := 0
    file := []
    listeners := [{ id := 1, action := LAction.unsub 2 }, { id := 2, action := LAction.noop }]
    typeMap := []
    setHeap := []
    nextSetId := 0 }

/-- Counterexample to C8 as stated: fan-out iterates the live set, not
a snapshot.  Listener 2 is registered at the moment fan-out begins, the
append succeeds, yet listener 2 never receives the record because
listener 1 unsubscribed it first. -/
theorem C8_snapshot_counterexample :
    ((2 : Nat) ∈ c8state.listeners.map Listener.id) ∧
    (appendOp c8state "t" "p" 0 true).result.isSome = true ∧
    (2 : Nat) ∉ (appendOp c8state "t" "p" 0 true).notified := by
  refine ⟨by decide, by decide, by decide⟩

/-- C8 amended: fan-out iteration is robust to mutation of the live
listener sets — the append always succeeds and returns the new entry,
for every mix of listener actions — and under live-iteration (not
snapshot) semantics, when every listener unsubscribes at most itself
(it may also throw or subscribe fresh listeners), every listener
registered when the fan-out began still receives the record.  A
listener removed by an *earlier* listener of the same fan-out, however,
does not receive it (see the counterexample). -/
theorem C8_live_iteration_amended (s : LogState) (t p : String) (ts : Int)
    (hndg : (s.listeners.map Listener.id).Nodup)
    (hsg : ∀ f ∈ s.listeners, selfSafe f = true)
    (hndt : ((typeSetOf s t).map Listener.id).Nodup)
    (hst : ∀ f ∈ typeSetOf s t, selfSafe f = true) :
    (appendOp s t p ts true).result
      = some { seq := s.seq + 1, ts := ts, type := t, payload := p } ∧
    (∀ g ∈ s.listeners, g.id ∈ (appendOp s t p ts true).notified) ∧
    (∀ g ∈ typeSetOf s t, g.id ∈ (appendOp s t p ts true).notified) := by
  refine ⟨appendOp_true_result s t p ts, ?_, ?_⟩
  · intro g hgmem
    have hmem : g.id ∈ (fanout s.listeners).1 :=
      fanoutF_selfSafe_mem (setWeight s.listeners + 1) s.listeners (by omega)
        hsg hndg [] [] g hgmem
    cases hmap : mapGet s.typeMap t with
    | none => simpa [appendOp, hmap] using hmem
    | some sid =>
      simp only [appendOp, hmap]
      exact List.mem_append.mpr (Or.inl hmem)
  · intro g hgmem
    cases hmap : mapGet s.typeMap t with
    | none =>
      simp [typeSetOf, hmap] at hgmem
    | some sid =>
      have hgmem' : g ∈ heapGet s.setHeap sid := by
        simpa [typeSetOf, hmap] using hgmem
      have hst' : ∀ f ∈ heapGet s.setHeap sid, selfSafe f = true := by
        simpa [typeSetOf, hmap] using hst
      have hndt' : ((heapGet s.setHeap sid).map Listener.id).Nodup := by
        simpa [typeSetOf, hmap] using hndt
      have hmem : g.id ∈ (fanout (heapGet s.setHeap sid)).1 :=
        fanoutF_selfSafe_mem (setWeight (heapGet s.setHeap sid) + 1) _ (by omega)
          hst' hndt' [] [] g hgmem'
      simp only [appendOp, hmap]
      exact List.mem_append.mpr (Or.inr hmem)

/-- A concrete state for the C8 witness: the first global listener
unsubscribes only itself. -/
def c8wstate : LogState :=
  { seq := 0
    file := []
    listeners := [{ id := 1, action := LAction.unsub 1 }, { id := 2, action := LAction.noop }]
    typeMap := []
    setHeap := []
    nextSetId := 0 }

/-- Witness for the amended C8: a self-unsubscribing first listener
does not prevent the second listener from receiving the record. -/
theorem C8_live_iteration_amended_witness :
    (2 : Nat) ∈ (appendOp c8wstate "t" "p" 0 true).notified :=
  (C8_live_iteration_amended c8wstate "t" "p" 0 (by decide) (by decide) (by decide)
    (by decide)).2.1 { id := 2, action := LAction.noop } (by decide)

/-- C9: `close` clears the global listener set and the per-type
listener map and changes nothing else — the counter, the persisted
file, the set heap and the allocator are untouched — and an append
performed after `close` notifies no listener. -/
theorem C9_close_clears_only_listeners (s : LogState) (t payload : String) (ts : Int) :
    (closeOp s).seq = s.seq ∧
    (closeOp s).file = s.file ∧
    (closeOp s).setHeap = s.setHeap ∧
    (closeOp s).nextSetId = s.nextSetId ∧
    (closeOp s).listeners = [] ∧
    (closeOp s).typeMap = [] ∧
    (appendOp (closeOp s) t payload ts true).notified = [] :=
  ⟨rfl, rfl, rfl, rfl, rfl, rfl, rfl⟩

/-- C10: when `read` is called with a limit at most 0 on a file that
holds at least one eligible decodable entry, the result is exactly one
entry — the first eligible one — because the limit check only runs
after an entry has been collected. -/
theorem C10_limit_zero_returns_one (file : List Line) (a : Int) (ft : Option String) (n : Int)
    (hn : n ≤ 0)
    (hne : (file.filterMap decodeLine).filter (eligibleCode a ft) ≠ []) :
    readOp file { afterSeq := a, limit := some n, type := ft }
        = ((file.filterMap decodeLine).filter (eligibleCode a ft)).take 1 ∧
    (readOp file { afterSeq := a, limit := some n, type := ft }).length = 1 := by
  have h := readOp_characterized file { afterSeq := a, limit := some n, type := ft }
  have hmax : (max n 1).toNat = 1 := by omega
  have hred : readOp file { afterSeq := a, limit := some n, type := ft }
      = ((file.filterMap decodeLine).filter (eligibleCode a ft)).take 1 := by
    rw [h]
    simp only [readCharacterized, takeLimitCode, hmax]
  refine ⟨hred, ?_⟩
  rw [hred]
  cases hcase : (file.filterMap decodeLine).filter (eligibleCode a ft) with
  | nil => exact absurd hcase hne
  | cons x xs => simp [hcase]

/-- Witness for C10: a one-entry file read with `limit = 0` returns
that entry. -/
theorem C10_limit_zero_returns_one_witness :
    readOp [Line.entry { seq := 1, ts := 0, type := "A", payload := "p" }]
        { afterSeq := 0, limit := some 0, type := none }
      = [{ seq := 1, ts := 0, type := "A", payload := "p" }] := by
  have h := (C10_limit_zero_returns_one
    [Line.entry { seq := 1, ts := 0, type := "A", payload := "p" }]
    0 none 0 (by decide) (by decide)).1
  rw [h]
  decide

end EventLog
